import Mathlib

/-!
# Verification of the LazorKey local-encryption and session-store core

This development embeds, in Lean 4, the two components of the LazorKey
repository that carry algorithmic content:

* the local-encryption utilities of `src/lib/utils.ts`
  (`encryptLocal`, `decryptLocal`, `subtleKeyFromDeviceInfo`,
  `bufferToBase64`, `base64ToBuffer`), and
* the session store (`createSession`, `getSession`, `clearSession`,
  `updateLastActivity`, `extendSession`, `hasValidSession`,
  `getSessionTimeRemaining`, `isSessionExpiringSoon`).

The encryption utilities call several *external* browser APIs.  Those are
not code of this repository, so they are modelled from their public
specifications:

* `TextEncoder` / `TextDecoder`: UTF-8 encoding and decoding, implemented
  here over `List Char` / byte lists (`utf8Encode`, `utf8Decode`).  The
  real `TextDecoder` in its default non-fatal mode substitutes replacement
  characters on malformed input instead of failing; our model returns
  `none` there.  No theorem below depends on the behaviour at malformed
  input: the decoder is only ever reached with bytes produced by
  `utf8Encode`.
* `btoa` / `atob`: canonical base64 with padding, and the WHATWG
  "forgiving base64" decode (whitespace removal, padding stripping,
  rejection of length ≡ 1 mod 4), implemented over `List Char`.
* The Web Cryptography API (PBKDF2 `deriveKey` and AES-GCM
  `encrypt`/`decrypt`): modelled as an *ideal* key-derivation function and
  an *ideal* authenticated cipher.  A derived key is identified by the
  inputs of the derivation (key material, salt, iteration count, hash,
  key length); the cipher's ciphertext is an injective, self-delimiting
  byte encoding of key, IV and message, stored twice, and decryption
  succeeds exactly on untampered ciphertexts produced with the same key
  and IV.  This is the standard symbolic idealisation of an AEAD scheme:
  the authenticity guarantee (any modification is detected) holds
  unconditionally in the model, where for the real AES-GCM it holds
  computationally.

Machine integers do not arise: all byte values are `Nat` below 256, all
times are `Nat` milliseconds (JavaScript `Date.now()` values are exact
integers far below 2^53, so no overflow semantics are lost).
-/

set_option maxRecDepth 16384
set_option maxHeartbeats 2000000

namespace LazorKey

/-! ## UTF-8 (model of `TextEncoder` / `TextDecoder`) -/

/-- UTF-8 encoding of a single character, per the Unicode specification.
Models what `TextEncoder.encode` does to each code point. -/
def utf8EncodeChar (c : Char) : List Nat :=
  let n := c.toNat
  if n < 0x80 then [n]
  else if n < 0x800 then [0xC0 + n / 64, 0x80 + n % 64]
  else if n < 0x10000 then [0xE0 + n / 4096, 0x80 + n / 64 % 64, 0x80 + n % 64]
  else [0xF0 + n / 262144, 0x80 + n / 4096 % 64, 0x80 + n / 64 % 64, 0x80 + n % 64]

/-- UTF-8 encoding of a string (as its list of characters). -/
def utf8Encode : List Char → List Nat
  | [] => []
  | c :: cs => utf8EncodeChar c ++ utf8Encode cs

/-- Is `b` a UTF-8 continuation byte? -/
def isCont (b : Nat) : Bool := 0x80 ≤ b && b < 0xC0

/-- Decode a single UTF-8-encoded code point at the front of a byte stream,
per the Unicode specification: rejects stray or missing continuation bytes,
overlong encodings, surrogate code points and values above `0x10FFFF`.
Returns the decoded character and the remaining bytes. -/
def utf8Step : List Nat → Option (Char × List Nat)
  | [] => none
  | b :: rest =>
    if b < 0x80 then some (Char.ofNat b, rest)
    else if b < 0xC0 then none
    else if b < 0xE0 then
      match rest with
      | b2 :: rest2 =>
        if isCont b2 then
          let n := (b - 0xC0) * 64 + (b2 - 0x80)
          if 0x80 ≤ n then some (Char.ofNat n, rest2) else none
        else none
      | [] => none
    else if b < 0xF0 then
      match rest with
      | b2 :: b3 :: rest2 =>
        if isCont b2 && isCont b3 then
          let n := (b - 0xE0) * 4096 + (b2 - 0x80) * 64 + (b3 - 0x80)
          if 0x800 ≤ n && !(0xD800 ≤ n && n ≤ 0xDFFF) then
            some (Char.ofNat n, rest2)
          else none
        else none
      | _ => none
    else if b < 0xF8 then
      match rest with
      | b2 :: b3 :: b4 :: rest2 =>
        if isCont b2 && isCont b3 && isCont b4 then
          let n := (b - 0xF0) * 262144 + (b2 - 0x80) * 4096 + (b3 - 0x80) * 64 + (b4 - 0x80)
          if 0x10000 ≤ n && n < 0x110000 then
            some (Char.ofNat n, rest2)
          else none
        else none
      | _ => none
    else none

/-- The single-character decoder consumes at least one byte. -/
theorem utf8Step_length {bs : List Nat} {c : Char} {rest : List Nat}
    (h : utf8Step bs = some (c, rest)) : rest.length < bs.length := by
  match bs with
  | [] => simp [utf8Step] at h
  | b :: r =>
    simp only [utf8Step] at h
    split at h
    · cases h; simp
    · split at h
      · cases h
      · split at h
        · match r with
          | [] => cases h
          | b2 :: r2 =>
            simp only at h
            split at h
            · split at h
              · cases h; simp; omega
              · cases h
            · cases h
        · split at h
          · match r with
            | [] => cases h
            | [b2] => cases h
            | b2 :: b3 :: r2 =>
              simp only at h
              split at h
              · split at h
                · cases h; simp; omega
                · cases h
              · cases h
          · split at h
            · match r with
              | [] => cases h
              | [b2] => cases h
              | [b2, b3] => cases h
              | b2 :: b3 :: b4 :: r2 =>
                simp only at h
                split at h
                · split at h
                  · cases h; simp; omega
                  · cases h
                · cases h
            · cases h

/-- UTF-8 decoding of a byte stream.  Models `TextDecoder.decode` on
well-formed input (the real decoder, in its default non-fatal mode,
substitutes U+FFFD on malformed input; our model returns `none` there, a
path no theorem depends on). -/
def utf8Decode (bs : List Nat) : Option (List Char) :=
  match h : utf8Step bs with
  | some (c, rest) => (utf8Decode rest).map (c :: ·)
  | none => if bs = [] then some [] else none
termination_by bs.length
decreasing_by exact utf8Step_length h

theorem char_toNat_lt (c : Char) : c.toNat < 0x110000 := by
  rcases c.valid with h | h
  · have : c.val.toNat < 0xd800 := h
    simp only [Char.toNat]; omega
  · exact h.2

theorem char_not_surrogate (c : Char) : ¬ (0xD800 ≤ c.toNat ∧ c.toNat ≤ 0xDFFF) := by
  rcases c.valid with h | h
  · have : c.val.toNat < 0xd800 := h
    simp only [Char.toNat]; omega
  · have := h.1
    simp only [Char.toNat]; omega

/-- Decoding one character from the front of an encoded stream recovers that
character and leaves the remaining bytes untouched. -/
theorem utf8Step_encodeChar (c : Char) (bs : List Nat) :
    utf8Step (utf8EncodeChar c ++ bs) = some (c, bs) := by
  have hlt := char_toNat_lt c
  have hsur := char_not_surrogate c
  by_cases h1 : c.toNat < 0x80
  · have henc : utf8EncodeChar c = [c.toNat] := by
      simp only [utf8EncodeChar, if_pos h1]
    rw [henc, List.cons_append, List.nil_append, utf8Step.eq_def]
    simp only [h1, if_true, ite_true, Char.ofNat_toNat]
  · by_cases h2 : c.toNat < 0x800
    · have henc : utf8EncodeChar c = [0xC0 + c.toNat / 64, 0x80 + c.toNat % 64] := by
        simp only [utf8EncodeChar, if_neg h1, if_pos h2]
      have e1 : ¬ (0xC0 + c.toNat / 64 < 0x80) := by omega
      have e2 : ¬ (0xC0 + c.toNat / 64 < 0xC0) := by omega
      have e3 : 0xC0 + c.toNat / 64 < 0xE0 := by omega
      have e4 : isCont (0x80 + c.toNat % 64) = true := by
        simp only [isCont, Bool.and_eq_true, decide_eq_true_eq]; omega
      rw [henc, List.cons_append, List.cons_append, List.nil_append, utf8Step.eq_def]
      simp only [e1, e2, e3, e4, if_false, if_true, ite_true, ite_false]
      have e5 : (0xC0 + c.toNat / 64 - 0xC0) * 64 + (0x80 + c.toNat % 64 - 0x80) = c.toNat := by
        omega
      simp only [e5]
      have e6 : 0x80 ≤ c.toNat := by omega
      simp only [e6, if_pos, if_true, Char.ofNat_toNat]
    · by_cases h3 : c.toNat < 0x10000
      · have henc : utf8EncodeChar c
            = [0xE0 + c.toNat / 4096, 0x80 + c.toNat / 64 % 64, 0x80 + c.toNat % 64] := by
          simp only [utf8EncodeChar, if_neg h1, if_neg h2, if_pos h3]
        have e1 : ¬ (0xE0 + c.toNat / 4096 < 0x80) := by omega
        have e2 : ¬ (0xE0 + c.toNat / 4096 < 0xC0) := by omega
        have e3 : ¬ (0xE0 + c.toNat / 4096 < 0xE0) := by omega
        have e4 : 0xE0 + c.toNat / 4096 < 0xF0 := by omega
        have e5 : (isCont (0x80 + c.toNat / 64 % 64) && isCont (0x80 + c.toNat % 64)) = true := by
          simp only [isCont, Bool.and_eq_true, decide_eq_true_eq]
          omega
        rw [henc, List.cons_append, List.cons_append, List.cons_append, List.nil_append,
          utf8Step.eq_def]
        simp only [e1, e2, e3, e4, e5, if_false, if_true, ite_true, ite_false]
        have e6 : (0xE0 + c.toNat / 4096 - 0xE0) * 4096 + (0x80 + c.toNat / 64 % 64 - 0x80) * 64
            + (0x80 + c.toNat % 64 - 0x80) = c.toNat := by omega
        simp only [e6]
        have e7 : (0x800 ≤ c.toNat && !(0xD800 ≤ c.toNat && c.toNat ≤ 0xDFFF)) = true := by
          simp only [Bool.and_eq_true, Bool.not_eq_true', Bool.and_eq_false_iff,
            decide_eq_true_eq, decide_eq_false_iff_not]
          omega
        simp only [e7, if_true, ite_true, Char.ofNat_toNat]
      · have henc : utf8EncodeChar c = [0xF0 + c.toNat / 262144, 0x80 + c.toNat / 4096 % 64,
            0x80 + c.toNat / 64 % 64, 0x80 + c.toNat % 64] := by
          simp only [utf8EncodeChar, if_neg h1, if_neg h2, if_neg h3]
        have e1 : ¬ (0xF0 + c.toNat / 262144 < 0x80) := by omega
        have e2 : ¬ (0xF0 + c.toNat / 262144 < 0xC0) := by omega
        have e3 : ¬ (0xF0 + c.toNat / 262144 < 0xE0) := by omega
        have e4 : ¬ (0xF0 + c.toNat / 262144 < 0xF0) := by omega
        have e5 : 0xF0 + c.toNat / 262144 < 0xF8 := by omega
        have e6 : (isCont (0x80 + c.toNat / 4096 % 64) && isCont (0x80 + c.toNat / 64 % 64)
            && isCont (0x80 + c.toNat % 64)) = true := by
          simp only [isCont, Bool.and_eq_true, decide_eq_true_eq]
          omega
        rw [henc, List.cons_append, List.cons_append, List.cons_append, List.cons_append,
          List.nil_append, utf8Step.eq_def]
        simp only [e1, e2, e3, e4, e5, e6, if_false, if_true, ite_true, ite_false]
        have e7 : (0xF0 + c.toNat / 262144 - 0xF0) * 262144
            + (0x80 + c.toNat / 4096 % 64 - 0x80) * 4096
            + (0x80 + c.toNat / 64 % 64 - 0x80) * 64 + (0x80 + c.toNat % 64 - 0x80) = c.toNat := by
          omega
        simp only [e7]
        have e8 : (0x10000 ≤ c.toNat && c.toNat < 0x110000) = true := by
          simp only [Bool.and_eq_true, decide_eq_true_eq]
          omega
        simp only [e8, if_true, ite_true, Char.ofNat_toNat]

/-- UTF-8 round-trip: decoding an encoded string recovers the string. -/
theorem utf8Decode_utf8Encode (cs : List Char) :
    utf8Decode (utf8Encode cs) = some cs := by
  induction cs with
  | nil => simp [utf8Encode, utf8Decode, utf8Step]
  | cons c cs ih =>
    rw [utf8Encode, utf8Decode]
    split
    · next c' rest h =>
      rw [utf8Step_encodeChar] at h
      cases h
      rw [ih]
      rfl
    · next h =>
      rw [utf8Step_encodeChar] at h
      cases h

/-- UTF-8 encoding is injective (it has a left inverse). -/
theorem utf8Encode_injective : Function.Injective utf8Encode := by
  intro a b h
  have := utf8Decode_utf8Encode a
  rw [h, utf8Decode_utf8Encode b] at this
  exact (Option.some_injective _ this).symm

/-- Every byte of a UTF-8 encoding is below 256. -/
theorem utf8EncodeChar_lt_256 (c : Char) : ∀ b ∈ utf8EncodeChar c, b < 256 := by
  have hlt := char_toNat_lt c
  intro b hb
  simp only [utf8EncodeChar] at hb
  split at hb <;> [skip; split at hb] <;> [skip; skip; split at hb] <;>
    simp only [List.mem_cons, List.mem_singleton, List.not_mem_nil, or_false] at hb <;>
    rcases hb with rfl | hb <;> omega

theorem utf8Encode_lt_256 (cs : List Char) : ∀ b ∈ utf8Encode cs, b < 256 := by
  induction cs with
  | nil => intro b hb; simp [utf8Encode] at hb
  | cons c cs ih =>
    intro b hb
    simp only [utf8Encode, List.mem_append] at hb
    rcases hb with hb | hb
    · exact utf8EncodeChar_lt_256 c b hb
    · exact ih b hb

/-! ## Base64 (model of `btoa` / `atob`)

The source's `bufferToBase64` is `btoa(String.fromCharCode(...buf))` and
`base64ToBuffer` is `atob` followed by reading the char codes, so the
byte-level content is exactly canonical base64 encoding and WHATWG
forgiving-base64 decoding. -/

/-- The base64 alphabet character for a 6-bit value. -/
def b64Char (n : Nat) : Char :=
  if n < 26 then Char.ofNat (65 + n)
  else if n < 52 then Char.ofNat (97 + (n - 26))
  else if n < 62 then Char.ofNat (48 + (n - 52))
  else if n = 62 then '+'
  else '/'

/-- The 6-bit value of a base64 alphabet character, `none` outside the
alphabet. -/
def b64DecodeChar (c : Char) : Option Nat :=
  let n := c.toNat
  if 65 ≤ n ∧ n ≤ 90 then some (n - 65)
  else if 97 ≤ n ∧ n ≤ 122 then some (n - 97 + 26)
  else if 48 ≤ n ∧ n ≤ 57 then some (n - 48 + 52)
  else if c = '+' then some 62
  else if c = '/' then some 63
  else none

/-- ASCII whitespace, removed by the forgiving-base64 decoder. -/
def isB64Ws (c : Char) : Bool :=
  c = ' ' || c = '\t' || c = '\n' || c = '\x0d' || c = '\x0c'

theorem b64DecodeChar_b64Char : ∀ n < 64, b64DecodeChar (b64Char n) = some n := by decide

theorem b64Char_props : ∀ n < 64,
    isB64Ws (b64Char n) = false ∧ b64Char n ≠ '=' ∧ b64Char n ≠ '.' := by decide

/-- Base64 encoding without padding characters, three bytes to four
characters. -/
def b64EncodeCore : List Nat → List Char
  | [] => []
  | [b1] => [b64Char (b1 / 4), b64Char (b1 % 4 * 16)]
  | [b1, b2] => [b64Char (b1 / 4), b64Char (b1 % 4 * 16 + b2 / 16), b64Char (b2 % 16 * 4)]
  | b1 :: b2 :: b3 :: rest =>
    b64Char (b1 / 4) :: b64Char (b1 % 4 * 16 + b2 / 16) :: b64Char (b2 % 16 * 4 + b3 / 64)
      :: b64Char (b3 % 64) :: b64EncodeCore rest

/-- The `=` padding appended by `btoa`, determined by the byte count. -/
def b64Pad (len : Nat) : List Char :=
  match len % 3 with
  | 1 => ['=', '=']
  | 2 => ['=']
  | _ => []

/-- Model of `btoa` on a byte sequence: canonical padded base64. -/
def btoaModel (bs : List Nat) : List Char := b64EncodeCore bs ++ b64Pad bs.length

/-- Base64 decoding of a padding-free character sequence, four characters to
three bytes, with a final group of two or three characters allowed; a final
group of one character is invalid. -/
def b64DecodeCore : List Char → Option (List Nat)
  | [] => some []
  | [c1, c2] => do
      let n1 ← b64DecodeChar c1
      let n2 ← b64DecodeChar c2
      pure [n1 * 4 + n2 / 16]
  | [c1, c2, c3] => do
      let n1 ← b64DecodeChar c1
      let n2 ← b64DecodeChar c2
      let n3 ← b64DecodeChar c3
      pure [n1 * 4 + n2 / 16, n2 % 16 * 16 + n3 / 4]
  | c1 :: c2 :: c3 :: c4 :: rest => do
      let n1 ← b64DecodeChar c1
      let n2 ← b64DecodeChar c2
      let n3 ← b64DecodeChar c3
      let n4 ← b64DecodeChar c4
      let tail ← b64DecodeCore rest
      pure ((n1 * 4 + n2 / 16) :: (n2 % 16 * 16 + n3 / 4) :: (n3 % 4 * 64 + n4) :: tail)
  | [_] => none

/-- Remove one or two trailing `=` characters (step 2 of forgiving-base64
decoding). -/
def stripPad (cs : List Char) : List Char :=
  let cs1 := if cs.getLast? = some '=' then cs.dropLast else cs
  if cs1.getLast? = some '=' then cs1.dropLast else cs1

/-- Model of `atob`: the WHATWG forgiving-base64 decode.  Removes ASCII
whitespace; if the length is a multiple of four, strips up to two trailing
`=`; fails if the remaining length is 1 mod 4 or any character (including a
remaining `=`) is outside the alphabet. -/
def atobModel (s : List Char) : Option (List Nat) :=
  let cs0 := s.filter (fun c => !isB64Ws c)
  let cs := if cs0.length % 4 = 0 then stripPad cs0 else cs0
  if cs.length % 4 = 1 then none
  else if '=' ∈ cs then none
  else b64DecodeCore cs

theorem b64EncodeCore_props (bs : List Nat) (h : ∀ b ∈ bs, b < 256) :
    ∀ c ∈ b64EncodeCore bs, isB64Ws c = false ∧ c ≠ '=' ∧ c ≠ '.' := by
  induction bs using b64EncodeCore.induct with
  | case1 => intro c hc; simp [b64EncodeCore] at hc
  | case2 b1 =>
    intro c hc
    have hb1 : b1 < 256 := h b1 (by simp)
    simp only [b64EncodeCore, List.mem_cons, List.not_mem_nil, or_false] at hc
    rcases hc with rfl | rfl
    · exact b64Char_props _ (by omega)
    · exact b64Char_props _ (by omega)
  | case3 b1 b2 =>
    intro c hc
    have hb1 : b1 < 256 := h b1 (by simp)
    have hb2 : b2 < 256 := h b2 (by simp)
    simp only [b64EncodeCore, List.mem_cons, List.not_mem_nil, or_false] at hc
    rcases hc with rfl | rfl | rfl
    · exact b64Char_props _ (by omega)
    · exact b64Char_props _ (by omega)
    · exact b64Char_props _ (by omega)
  | case4 b1 b2 b3 rest ih =>
    intro c hc
    have hb1 : b1 < 256 := h b1 (by simp)
    have hb2 : b2 < 256 := h b2 (by simp)
    have hb3 : b3 < 256 := h b3 (by simp)
    simp only [b64EncodeCore, List.mem_cons] at hc
    rcases hc with rfl | rfl | rfl | rfl | hc
    · exact b64Char_props _ (by omega)
    · exact b64Char_props _ (by omega)
    · exact b64Char_props _ (by omega)
    · exact b64Char_props _ (by omega)
    · exact ih (fun b hb => h b (by simp [hb])) c hc

theorem b64EncodeCore_length (bs : List Nat) :
    (b64EncodeCore bs).length % 4 = 0 ∧ bs.length % 3 = 0
    ∨ (b64EncodeCore bs).length % 4 = 2 ∧ bs.length % 3 = 1
    ∨ (b64EncodeCore bs).length % 4 = 3 ∧ bs.length % 3 = 2 := by
  induction bs using b64EncodeCore.induct with
  | case1 => left; simp [b64EncodeCore]
  | case2 b1 => right; left; simp [b64EncodeCore]
  | case3 b1 b2 => right; right; simp [b64EncodeCore]
  | case4 b1 b2 b3 rest ih =>
    simp only [b64EncodeCore, List.length_cons]
    rcases ih with ⟨h1, h2⟩ | ⟨h1, h2⟩ | ⟨h1, h2⟩
    · left; omega
    · right; left; omega
    · right; right; omega

theorem b64DecodeCore_b64EncodeCore (bs : List Nat) (h : ∀ b ∈ bs, b < 256) :
    b64DecodeCore (b64EncodeCore bs) = some bs := by
  induction bs using b64EncodeCore.induct with
  | case1 => rfl
  | case2 b1 =>
    have hb1 : b1 < 256 := h b1 (by simp)
    have d1 := b64DecodeChar_b64Char (b1 / 4) (by omega)
    have d2 := b64DecodeChar_b64Char (b1 % 4 * 16) (by omega)
    simp only [b64EncodeCore, b64DecodeCore, d1, d2, Option.bind_eq_bind, Option.some_bind]
    have : b1 / 4 * 4 + b1 % 4 * 16 / 16 = b1 := by omega
    rw [this]
    rfl
  | case3 b1 b2 =>
    have hb1 : b1 < 256 := h b1 (by simp)
    have hb2 : b2 < 256 := h b2 (by simp)
    have d1 := b64DecodeChar_b64Char (b1 / 4) (by omega)
    have d2 := b64DecodeChar_b64Char (b1 % 4 * 16 + b2 / 16) (by omega)
    have d3 := b64DecodeChar_b64Char (b2 % 16 * 4) (by omega)
    simp only [b64EncodeCore, b64DecodeCore, d1, d2, d3, Option.bind_eq_bind, Option.some_bind]
    have e1 : b1 / 4 * 4 + (b1 % 4 * 16 + b2 / 16) / 16 = b1 := by omega
    have e2 : (b1 % 4 * 16 + b2 / 16) % 16 * 16 + b2 % 16 * 4 / 4 = b2 := by omega
    rw [e1, e2]
    rfl
  | case4 b1 b2 b3 rest ih =>
    have hb1 : b1 < 256 := h b1 (by simp)
    have hb2 : b2 < 256 := h b2 (by simp)
    have hb3 : b3 < 256 := h b3 (by simp)
    have d1 := b64DecodeChar_b64Char (b1 / 4) (by omega)
    have d2 := b64DecodeChar_b64Char (b1 % 4 * 16 + b2 / 16) (by omega)
    have d3 := b64DecodeChar_b64Char (b2 % 16 * 4 + b3 / 64) (by omega)
    have d4 := b64DecodeChar_b64Char (b3 % 64) (by omega)
    have ihh := ih (fun b hb => h b (by simp [hb]))
    simp only [b64EncodeCore, b64DecodeCore, d1, d2, d3, d4, ihh, Option.bind_eq_bind,
      Option.some_bind]
    have e1 : b1 / 4 * 4 + (b1 % 4 * 16 + b2 / 16) / 16 = b1 := by omega
    have e2 : (b1 % 4 * 16 + b2 / 16) % 16 * 16 + (b2 % 16 * 4 + b3 / 64) / 4 = b2 := by omega
    have e3 : (b2 % 16 * 4 + b3 / 64) % 4 * 64 + b3 % 64 = b3 := by omega
    rw [e1, e2, e3]
    rfl

theorem stripPad_of_no_eq {cs : List Char} (h : '=' ∉ cs) : stripPad cs = cs := by
  have hl : cs.getLast? ≠ some '=' := by
    intro hc
    exact h (List.mem_of_mem_getLast? hc)
  simp only [stripPad, if_neg hl]

theorem stripPad_append_one {cs : List Char} (h : '=' ∉ cs) :
    stripPad (cs ++ ['=']) = cs := by
  have h1 : (cs ++ ['=']).getLast? = some '=' := List.getLast?_concat cs
  have h2 : (cs ++ ['=']).dropLast = cs := List.dropLast_concat
  have hl : cs.getLast? ≠ some '=' := by
    intro hc
    exact h (List.mem_of_mem_getLast? hc)
  simp only [stripPad, h1, if_pos, h2, if_neg hl, if_true]

theorem stripPad_append_two {cs : List Char} (h : '=' ∉ cs) :
    stripPad (cs ++ ['=', '=']) = cs := by
  have hassoc : cs ++ ['=', '='] = (cs ++ ['=']) ++ ['='] := by simp
  have h1 : ((cs ++ ['=']) ++ ['=']).getLast? = some '=' := List.getLast?_concat _
  have h2 : ((cs ++ ['=']) ++ ['=']).dropLast = cs ++ ['='] := List.dropLast_concat
  have h3 : (cs ++ ['=']).getLast? = some '=' := List.getLast?_concat cs
  have h4 : (cs ++ ['=']).dropLast = cs := List.dropLast_concat
  rw [hassoc]
  simp only [stripPad, h1, if_pos, h2, h3, h4, if_true]

/-- Round-trip of the source's base64 helpers: forgiving-base64 decoding of a
canonical padded encoding recovers the bytes. -/
theorem atobModel_btoaModel (bs : List Nat) (h : ∀ b ∈ bs, b < 256) :
    atobModel (btoaModel bs) = some bs := by
  have hprops := b64EncodeCore_props bs h
  have hnoeq : '=' ∉ b64EncodeCore bs := fun hc => (hprops '=' hc).2.1 rfl
  have hnows : ∀ c ∈ btoaModel bs, (!isB64Ws c) = true := by
    intro c hc
    simp only [btoaModel, List.mem_append] at hc
    rcases hc with hc | hc
    · simp [(hprops c hc).1]
    · have : c = '=' := by
        simp only [b64Pad] at hc
        split at hc <;> simp_all
      subst this
      rfl
  have hfilter : (btoaModel bs).filter (fun c => !isB64Ws c) = btoaModel bs :=
    List.filter_eq_self.mpr hnows
  rcases b64EncodeCore_length bs with ⟨h1, h2⟩ | ⟨h1, h2⟩ | ⟨h1, h2⟩
  · have hpad : b64Pad bs.length = [] := by simp [b64Pad, h2]
    have hbt : btoaModel bs = b64EncodeCore bs := by
      simp [btoaModel, hpad]
    rw [atobModel, hfilter, hbt]
    simp only [h1, if_pos, if_true, stripPad_of_no_eq hnoeq, h1]
    have hne1 : ¬ ((b64EncodeCore bs).length % 4 = 1) := by omega
    simp only [hne1, if_neg, if_false, hnoeq, ite_false]
    exact b64DecodeCore_b64EncodeCore bs h
  · have hpad : b64Pad bs.length = ['=', '='] := by simp [b64Pad, h2]
    have hbt : btoaModel bs = b64EncodeCore bs ++ ['=', '='] := by
      simp [btoaModel, hpad]
    have hlen : (b64EncodeCore bs ++ ['=', '=']).length % 4 = 0 := by
      simp only [List.length_append, List.length_cons, List.length_nil]
      omega
    rw [atobModel, hfilter, hbt]
    simp only [hlen, if_pos, if_true, stripPad_append_two hnoeq]
    have hne1 : ¬ ((b64EncodeCore bs).length % 4 = 1) := by omega
    simp only [hne1, if_neg, if_false, hnoeq, ite_false]
    exact b64DecodeCore_b64EncodeCore bs h
  · have hpad : b64Pad bs.length = ['='] := by simp [b64Pad, h2]
    have hbt : btoaModel bs = b64EncodeCore bs ++ ['='] := by
      simp [btoaModel, hpad]
    have hlen : (b64EncodeCore bs ++ ['=']).length % 4 = 0 := by
      simp only [List.length_append, List.length_cons, List.length_nil]
      omega
    rw [atobModel, hfilter, hbt]
    simp only [hlen, if_pos, if_true, stripPad_append_one hnoeq]
    have hne1 : ¬ ((b64EncodeCore bs).length % 4 = 1) := by omega
    simp only [hne1, if_neg, if_false, hnoeq, ite_false]
    exact b64DecodeCore_b64EncodeCore bs h

/-! ## JavaScript `payload.split(".")` -/

/-- Model of JavaScript `String.prototype.split(".")` on a character list:
splits at every `'.'`, keeping empty segments (`"".split "." = [""]`). -/
def splitDot : List Char → List (List Char)
  | [] => [[]]
  | c :: rest =>
    if c = '.' then [] :: splitDot rest
    else
      match splitDot rest with
      | [] => [[c]]
      | g :: gs => (c :: g) :: gs

theorem splitDot_ne_nil (cs : List Char) : splitDot cs ≠ [] := by
  induction cs with
  | nil => simp [splitDot]
  | cons c rest ih =>
    rw [splitDot]
    split
    · simp
    · match hg : splitDot rest with
      | [] => simp
      | g :: gs => simp

theorem splitDot_no_dot (a : List Char) (h : '.' ∉ a) : splitDot a = [a] := by
  induction a with
  | nil => rfl
  | cons c rest ih =>
    have hc : ¬ (c = '.') := fun he => h (by simp [he])
    have hr : splitDot rest = [rest] := ih (fun he => h (by simp [he]))
    rw [splitDot, if_neg hc, hr]

theorem splitDot_append (a rest : List Char) (h : '.' ∉ a) :
    splitDot (a ++ '.' :: rest) = a :: splitDot rest := by
  induction a with
  | nil => simp [splitDot]
  | cons c a' ih =>
    have hc : ¬ (c = '.') := fun he => h (by simp [he])
    have hr := ih (fun he => h (by simp [he]))
    rw [List.cons_append, splitDot, if_neg hc, hr]

/-- Splitting a three-segment dotted payload whose segments are dot-free
recovers exactly the three segments. -/
theorem splitDot_three (a b c : List Char) (ha : '.' ∉ a) (hb : '.' ∉ b) (hc : '.' ∉ c) :
    splitDot (a ++ '.' :: (b ++ '.' :: c)) = [a, b, c] := by
  rw [splitDot_append _ _ ha, splitDot_append _ _ hb, splitDot_no_dot c hc]

/-! ## Self-delimiting byte encodings

These injective, parseable encodings realise the *ideal* model of the
external AES-GCM primitive: a ciphertext determines the key identity, the
IV and the message, and parsing is exact.  Every emitted byte is below
256. -/

/-- Self-delimiting encoding of a byte list: each element is prefixed by a
`1` marker and the list is terminated by `0`. -/
def encList : List Nat → List Nat
  | [] => [0]
  | b :: bs => 1 :: b :: encList bs

/-- Parse one `encList`-encoded list from the front of a stream, returning
it and the remaining bytes. -/
def parseList : List Nat → Option (List Nat × List Nat)
  | 0 :: rest => some ([], rest)
  | 1 :: b :: rest => (parseList rest).map (fun p => (b :: p.1, p.2))
  | _ => none

theorem parseList_encList (xs rest : List Nat) :
    parseList (encList xs ++ rest) = some (xs, rest) := by
  induction xs with
  | nil => rfl
  | cons b bs ih =>
    simp only [encList, List.cons_append, parseList, List.append_eq, ih, Option.map_some']

theorem encList_injective_append {xs ys r1 r2 : List Nat}
    (h : encList xs ++ r1 = encList ys ++ r2) : xs = ys ∧ r1 = r2 := by
  have h1 := parseList_encList xs r1
  rw [h, parseList_encList ys r2] at h1
  injection h1 with h2
  injection h2 with h3 h4
  exact ⟨h3.symm, h4.symm⟩

theorem encList_lt_256 {xs : List Nat} (h : ∀ b ∈ xs, b < 256) :
    ∀ b ∈ encList xs, b < 256 := by
  induction xs with
  | nil => intro b hb; simp only [encList, List.mem_singleton] at hb; omega
  | cons x xs ih =>
    intro b hb
    simp only [encList, List.mem_cons] at hb
    rcases hb with rfl | rfl | hb
    · omega
    · exact h b (by simp)
    · exact ih (fun y hy => h y (by simp [hy])) b hb

/-- Little-endian base-256 digits, peeling one digit per unit of fuel
(structural recursion, so that concrete values reduce inside `decide`). -/
def toB256Fuel : Nat → Nat → List Nat
  | _, 0 => []
  | 0, _ + 1 => []
  | fuel + 1, n + 1 => ((n + 1) % 256) :: toB256Fuel fuel ((n + 1) / 256)

/-- Little-endian base-256 digits of a natural number (`n` itself is always
enough fuel). -/
def toB256 (n : Nat) : List Nat := toB256Fuel n n

/-- Value of a little-endian base-256 digit list. -/
def fromB256 : List Nat → Nat
  | [] => 0
  | d :: ds => d + 256 * fromB256 ds

theorem fromB256_toB256Fuel :
    ∀ (fuel n : Nat), n ≤ fuel → fromB256 (toB256Fuel fuel n) = n := by
  intro fuel
  induction fuel with
  | zero =>
    intro n h
    have : n = 0 := by omega
    subst this
    rfl
  | succ fuel ih =>
    intro n h
    match n with
    | 0 => rfl
    | m + 1 =>
      rw [toB256Fuel, fromB256, ih ((m + 1) / 256) (by omega)]
      omega

theorem fromB256_toB256 (n : Nat) : fromB256 (toB256 n) = n :=
  fromB256_toB256Fuel n n (Nat.le_refl n)

theorem toB256Fuel_lt_256 : ∀ (fuel n : Nat), ∀ d ∈ toB256Fuel fuel n, d < 256 := by
  intro fuel
  induction fuel with
  | zero =>
    intro n d hd
    match n with
    | 0 => simp [toB256Fuel] at hd
    | m + 1 => simp [toB256Fuel] at hd
  | succ fuel ih =>
    intro n d hd
    match n with
    | 0 => simp [toB256Fuel] at hd
    | m + 1 =>
      rw [toB256Fuel] at hd
      simp only [List.mem_cons] at hd
      rcases hd with rfl | hd
      · omega
      · exact ih ((m + 1) / 256) d hd

theorem toB256_lt_256 (n : Nat) : ∀ d ∈ toB256 n, d < 256 :=
  toB256Fuel_lt_256 n n

theorem toB256_injective {m n : Nat} (h : toB256 m = toB256 n) : m = n := by
  have := fromB256_toB256 m
  rw [h, fromB256_toB256 n] at this
  exact this.symm

/-! ## Ideal model of the Web Cryptography API -/

/-- The device-identifying browser values read by `subtleKeyFromDeviceInfo`:
`navigator.userAgent` and `navigator.platform`. -/
structure DeviceInfo where
  userAgent : String
  platform : String
deriving DecidableEq

/-- The device fingerprint string of the source:
`navigator.userAgent + (navigator.platform || "web")` (an empty `platform`
is falsy in JavaScript, so it falls back to `"web"`). -/
def deviceFingerprint (dev : DeviceInfo) : String :=
  dev.userAgent ++ (if dev.platform = "" then "web" else dev.platform)

/-- Ideal model of a key produced by `crypto.subtle.deriveKey`: the key is
identified by the exact inputs of the derivation.  Two derivations agree
iff all the inputs agree — the idealisation of PBKDF2 as a
collision-free, deterministic KDF. -/
structure CryptoKeyModel where
  password : List Nat
  salt : List Nat
  iterations : Nat
  hash : String
  keyLength : Nat
deriving DecidableEq

/-- Embedding of `subtleKeyFromDeviceInfo` (src/lib/utils.ts:186-203):
imports the UTF-8 bytes of the device fingerprint as PBKDF2 key material
and derives a 256-bit AES-GCM key with 100000 iterations of SHA-256 over
the given salt. -/
def subtleKeyFromDeviceInfo (dev : DeviceInfo) (salt : List Nat) : CryptoKeyModel :=
  { password := utf8Encode (deviceFingerprint dev).data
    salt := salt
    iterations := 100000
    hash := "SHA-256"
    keyLength := 256 }

/-- Injective byte flattening of a key's identity, used inside the ideal
ciphertext. -/
def keyBytes (k : CryptoKeyModel) : List Nat :=
  encList k.password ++ encList k.salt ++ encList (toB256 k.iterations)
    ++ encList (utf8Encode k.hash.data) ++ encList (toB256 k.keyLength)

theorem keyBytes_password_inj {k1 k2 : CryptoKeyModel}
    (h : keyBytes k1 = keyBytes k2) : k1.password = k2.password := by
  have h2 : encList k1.password ++ (encList k1.salt ++ (encList (toB256 k1.iterations)
        ++ (encList (utf8Encode k1.hash.data) ++ encList (toB256 k1.keyLength))))
      = encList k2.password ++ (encList k2.salt ++ (encList (toB256 k2.iterations)
        ++ (encList (utf8Encode k2.hash.data) ++ encList (toB256 k2.keyLength)))) := by
    simpa only [keyBytes, List.append_assoc] using h
  exact (encList_injective_append h2).1

/-- The body of an ideal AES-GCM ciphertext: the key identity, the IV and
the message, each self-delimited. -/
def gcmBody (key : CryptoKeyModel) (iv msg : List Nat) : List Nat :=
  encList (keyBytes key) ++ encList iv ++ msg

/-- Ideal model of `crypto.subtle.encrypt({name:"AES-GCM", iv}, key, msg)`:
the body is stored twice; the duplicate plays the role of the GCM
authentication tag, letting decryption detect *any* modification (the
idealised form of AES-GCM's authenticity guarantee). -/
def gcmEncrypt (key : CryptoKeyModel) (iv msg : List Nat) : List Nat :=
  gcmBody key iv msg ++ gcmBody key iv msg

/-- Ideal model of `crypto.subtle.decrypt({name:"AES-GCM", iv}, key, ct)`:
succeeds with the embedded message exactly when the ciphertext is an
untampered `gcmEncrypt` output made with the same key and IV. -/
def gcmDecrypt (key : CryptoKeyModel) (iv ct : List Nat) : Option (List Nat) :=
  if ct.length % 2 = 0 ∧ ct.take (ct.length / 2) = ct.drop (ct.length / 2) then
    match parseList (ct.take (ct.length / 2)) with
    | some (kb, rest1) =>
      match parseList rest1 with
      | some (iv2, msg) =>
        if kb = keyBytes key ∧ iv2 = iv then some msg else none
      | none => none
    | none => none
  else none

theorem gcmDecrypt_halves (key : CryptoKeyModel) (iv : List Nat) (B1 B2 : List Nat)
    (hlen : B1.length = B2.length) :
    gcmDecrypt key iv (B1 ++ B2) =
      if B1 = B2 then
        match parseList B1 with
        | some (kb, rest1) =>
          match parseList rest1 with
          | some (iv2, msg) =>
            if kb = keyBytes key ∧ iv2 = iv then some msg else none
          | none => none
        | none => none
      else none := by
  have hhalf : (B1 ++ B2).length / 2 = B1.length := by
    simp only [List.length_append]
    omega
  have heven : (B1 ++ B2).length % 2 = 0 := by
    simp only [List.length_append]
    omega
  rw [gcmDecrypt, hhalf, List.take_left, List.drop_left]
  by_cases hB : B1 = B2
  · rw [if_pos ⟨heven, hB⟩, if_pos hB]
  · rw [if_neg (fun hc => hB hc.2), if_neg hB]

theorem gcmDecrypt_gcmEncrypt (key : CryptoKeyModel) (iv msg : List Nat) :
    gcmDecrypt key iv (gcmEncrypt key iv msg) = some msg := by
  rw [gcmEncrypt, gcmDecrypt_halves key iv _ _ rfl, if_pos rfl]
  have hp1 : parseList (gcmBody key iv msg) = some (keyBytes key, encList iv ++ msg) := by
    rw [gcmBody, List.append_assoc, parseList_encList]
  rw [hp1]
  simp [parseList_encList]

/-- Ideal AES-GCM authentication: changing any single byte of a ciphertext
to a different value makes decryption fail (with any key and IV). -/
theorem gcmDecrypt_set_ne (key key' : CryptoKeyModel) (iv iv' msg : List Nat)
    (j v : Nat) (hj : j < (gcmEncrypt key iv msg).length)
    (hv : v ≠ (gcmEncrypt key iv msg).get ⟨j, hj⟩) :
    gcmDecrypt key' iv' ((gcmEncrypt key iv msg).set j v) = none := by
  have hB : gcmEncrypt key iv msg = gcmBody key iv msg ++ gcmBody key iv msg := rfl
  set B := gcmBody key iv msg with hBdef
  by_cases hcase : j < B.length
  · have hset : (gcmEncrypt key iv msg).set j v = B.set j v ++ B := by
      rw [hB, List.set_append_left _ _ hcase]
    have hne : B.set j v ≠ B := by
      intro he
      apply hv
      have h1 : (B.set j v)[j]? = some v := List.getElem?_set_eq hcase
      rw [he] at h1
      have h2 : (gcmEncrypt key iv msg)[j]? = B[j]? := by
        rw [hB, List.getElem?_append_left hcase]
      rw [h1] at h2
      have h3 : (gcmEncrypt key iv msg)[j]?
          = some ((gcmEncrypt key iv msg).get ⟨j, hj⟩) := by
        simp [List.getElem?_eq_getElem hj]
      rw [h2] at h3
      injection h3
    rw [hset, gcmDecrypt_halves _ _ _ _ (by simp), if_neg hne]
  · push_neg at hcase
    have hset : (gcmEncrypt key iv msg).set j v = B ++ B.set (j - B.length) v := by
      rw [hB, List.set_append_right _ _ hcase]
    have hlenj : j - B.length < B.length := by
      have := hj
      rw [hB] at this
      simp only [List.length_append] at this
      omega
    have hne : B ≠ B.set (j - B.length) v := by
      intro he
      apply hv
      have h1 : (B.set (j - B.length) v)[j - B.length]? = some v :=
        List.getElem?_set_eq hlenj
      rw [← he] at h1
      have h2 : (gcmEncrypt key iv msg)[j]? = B[j - B.length]? := by
        rw [hB, List.getElem?_append_right hcase]
      rw [h1] at h2
      have h3 : (gcmEncrypt key iv msg)[j]?
          = some ((gcmEncrypt key iv msg).get ⟨j, hj⟩) := by
        simp [List.getElem?_eq_getElem hj]
      rw [h2] at h3
      injection h3
    rw [hset, gcmDecrypt_halves _ _ _ _ (by simp), if_neg hne]

/-- Decrypting with a key whose identity differs fails (cross-key
rejection of the ideal cipher). -/
theorem gcmDecrypt_wrong_key (keyA keyB : CryptoKeyModel) (iv msg : List Nat)
    (hne : keyBytes keyA ≠ keyBytes keyB) :
    gcmDecrypt keyB iv (gcmEncrypt keyA iv msg) = none := by
  rw [gcmEncrypt, gcmDecrypt_halves keyB iv _ _ rfl, if_pos rfl]
  have hp1 : parseList (gcmBody keyA iv msg) = some (keyBytes keyA, encList iv ++ msg) := by
    rw [gcmBody, List.append_assoc, parseList_encList]
  rw [hp1]
  simp only [parseList_encList]
  simp [hne]

theorem gcmBody_lt_256 (key : CryptoKeyModel) (iv msg : List Nat)
    (hk : ∀ b ∈ keyBytes key, b < 256) (hiv : ∀ b ∈ iv, b < 256)
    (hmsg : ∀ b ∈ msg, b < 256) : ∀ b ∈ gcmBody key iv msg, b < 256 := by
  intro b hb
  simp only [gcmBody, List.mem_append] at hb
  rcases hb with (hb | hb) | hb
  · exact encList_lt_256 hk b hb
  · exact encList_lt_256 hiv b hb
  · exact hmsg b hb

theorem keyBytes_lt_256 (k : CryptoKeyModel)
    (hp : ∀ b ∈ k.password, b < 256) (hs : ∀ b ∈ k.salt, b < 256) :
    ∀ b ∈ keyBytes k, b < 256 := by
  intro b hb
  simp only [keyBytes, List.mem_append] at hb
  rcases hb with (((hb | hb) | hb) | hb) | hb
  · exact encList_lt_256 hp b hb
  · exact encList_lt_256 hs b hb
  · exact encList_lt_256 (toB256_lt_256 _) b hb
  · exact encList_lt_256 (utf8Encode_lt_256 _) b hb
  · exact encList_lt_256 (toB256_lt_256 _) b hb

theorem gcmEncrypt_lt_256 (key : CryptoKeyModel) (iv msg : List Nat)
    (hk : ∀ b ∈ keyBytes key, b < 256) (hiv : ∀ b ∈ iv, b < 256)
    (hmsg : ∀ b ∈ msg, b < 256) : ∀ b ∈ gcmEncrypt key iv msg, b < 256 := by
  intro b hb
  simp only [gcmEncrypt, List.mem_append] at hb
  rcases hb with hb | hb <;> exact gcmBody_lt_256 key iv msg hk hiv hmsg b hb

/-! ## Embedding of `src/lib/utils.ts` -/

/-- Embedding of `bufferToBase64` (src/lib/utils.ts:205-207):
`btoa(String.fromCharCode(...buf))`. -/
def bufferToBase64 (buf : List Nat) : String := String.mk (btoaModel buf)

/-- Embedding of `base64ToBuffer` (src/lib/utils.ts:209-213): `atob(b64)`
followed by reading each character code into a `Uint8Array`.  `atob`
throws on invalid input, modelled by `none`. -/
def base64ToBuffer (b64 : List Char) : Option (List Nat) := atobModel b64

/-- Model of `crypto.getRandomValues(new Uint8Array(n))`: `n` bytes drawn
from an explicit entropy source `r`. -/
def getRandomValues (r : Nat → Nat) (n : Nat) : List Nat :=
  (List.range n).map (fun i => r i % 256)

/-- Embedding of `encryptLocal` (src/lib/utils.ts:64-108), with the two
`crypto.getRandomValues` calls receiving explicit entropy sources `r1`
(12-byte IV) and `r2` (16-byte salt): derives the device key over the
fresh salt and returns `base64(iv)."."base64(salt)."."base64(ciphertext)`. -/
def encryptLocal (r1 r2 : Nat → Nat) (dev : DeviceInfo) (data : String) : String :=
  let iv := getRandomValues r1 12
  let salt := getRandomValues r2 16
  let secretSeed := subtleKeyFromDeviceInfo dev salt
  let out := gcmEncrypt secretSeed iv (utf8Encode data.data)
  bufferToBase64 iv ++ "." ++ bufferToBase64 salt ++ "." ++ bufferToBase64 out

/-- The exceptions that can be raised inside `decryptLocal`'s try-block:
`atob` raises `InvalidCharacterError`, `crypto.subtle.decrypt` raises
`OperationError` on authentication failure. -/
inductive JsError where
  | invalidCharacter
  | operationError
deriving DecidableEq

/-- JavaScript destructuring `const [ivB64, saltB64, dataB64] =
payload.split(".")` yields `undefined` for missing positions, and
`atob(undefined)` coerces the argument to the string `"undefined"`. -/
def partAt (parts : List (List Char)) (i : Nat) : List Char :=
  (parts.get? i).getD ("undefined".data)

/-- `atob` as used by `base64ToBuffer`, with its thrown
`InvalidCharacterError` made explicit. -/
def base64ToBufferE (b64 : List Char) : Except JsError (List Nat) :=
  match atobModel b64 with
  | some bs => Except.ok bs
  | none => Except.error JsError.invalidCharacter

/-- `crypto.subtle.decrypt` with its thrown `OperationError` made
explicit. -/
def gcmDecryptE (key : CryptoKeyModel) (iv ct : List Nat) : Except JsError (List Nat) :=
  match gcmDecrypt key iv ct with
  | some m => Except.ok m
  | none => Except.error JsError.operationError

/-- The try-block of `decryptLocal` (src/lib/utils.ts:136-184): split the
payload on dots, base64-decode the three segments, re-derive the key from
the device info and the recovered salt, decrypt, and UTF-8-decode the
plaintext.  (The model makes UTF-8 decoding fallible where the real
non-fatal `TextDecoder` would substitute U+FFFD; no theorem depends on
that path.) -/
def decryptBody (dev : DeviceInfo) (payload : String) : Except JsError String := do
  let parts := splitDot payload.data
  let iv ← base64ToBufferE (partAt parts 0)
  let salt ← base64ToBufferE (partAt parts 1)
  let data ← base64ToBufferE (partAt parts 2)
  let key := subtleKeyFromDeviceInfo dev salt
  let plain ← gcmDecryptE key iv data
  match utf8Decode plain with
  | some cs => pure (String.mk cs)
  | none => Except.error JsError.operationError

/-- Embedding of `decryptLocal` (src/lib/utils.ts:136-184): the catch-all
around the body maps every raised error to `null` (here `none`). -/
def decryptLocal (dev : DeviceInfo) (payload : String) : Option String :=
  match decryptBody dev payload with
  | Except.ok s => some s
  | Except.error _ => none

theorem getRandomValues_lt_256 (r : Nat → Nat) (n : Nat) :
    ∀ b ∈ getRandomValues r n, b < 256 := by
  intro b hb
  simp only [getRandomValues, List.mem_map] at hb
  obtain ⟨i, _, rfl⟩ := hb
  omega

theorem getRandomValues_length (r : Nat → Nat) (n : Nat) :
    (getRandomValues r n).length = n := by
  simp [getRandomValues]

theorem btoaModel_no_dot (bs : List Nat) (h : ∀ b ∈ bs, b < 256) :
    '.' ∉ btoaModel bs := by
  intro hc
  simp only [btoaModel, List.mem_append] at hc
  rcases hc with hc | hc
  · exact (b64EncodeCore_props bs h '.' hc).2.2 rfl
  · have : ('.' : Char) = '=' := by
      simp only [b64Pad] at hc
      split at hc <;> simp_all
    exact absurd this (by decide)

/-- Core round-trip at the definitional level, for a named IV/salt/key. -/
theorem decryptBody_encryptLocal (r1 r2 : Nat → Nat) (dev : DeviceInfo) (s : String) :
    decryptBody dev (encryptLocal r1 r2 dev s) = Except.ok s := by
  have hiv_lt := getRandomValues_lt_256 r1 12
  have hsalt_lt := getRandomValues_lt_256 r2 16
  have hmsg_lt := utf8Encode_lt_256 s.data
  have hkey_lt : ∀ b ∈ keyBytes (subtleKeyFromDeviceInfo dev (getRandomValues r2 16)),
      b < 256 :=
    keyBytes_lt_256 _ (utf8Encode_lt_256 _) (getRandomValues_lt_256 r2 16)
  have hct_lt : ∀ b ∈ gcmEncrypt (subtleKeyFromDeviceInfo dev (getRandomValues r2 16))
      (getRandomValues r1 12) (utf8Encode s.data), b < 256 :=
    gcmEncrypt_lt_256 _ _ _ hkey_lt (getRandomValues_lt_256 r1 12) hmsg_lt
  have hdata : (encryptLocal r1 r2 dev s).data
      = btoaModel (getRandomValues r1 12)
        ++ '.' :: (btoaModel (getRandomValues r2 16)
        ++ '.' :: btoaModel (gcmEncrypt (subtleKeyFromDeviceInfo dev (getRandomValues r2 16))
            (getRandomValues r1 12) (utf8Encode s.data))) := by
    simp [encryptLocal, bufferToBase64, String.data_append]
  have hsplit : splitDot (encryptLocal r1 r2 dev s).data
      = [btoaModel (getRandomValues r1 12), btoaModel (getRandomValues r2 16),
         btoaModel (gcmEncrypt (subtleKeyFromDeviceInfo dev (getRandomValues r2 16))
            (getRandomValues r1 12) (utf8Encode s.data))] := by
    rw [hdata]
    exact splitDot_three _ _ _ (btoaModel_no_dot _ hiv_lt) (btoaModel_no_dot _ hsalt_lt)
      (btoaModel_no_dot _ hct_lt)
  have hb1 : base64ToBufferE (btoaModel (getRandomValues r1 12))
      = Except.ok (getRandomValues r1 12) := by
    rw [base64ToBufferE, atobModel_btoaModel _ hiv_lt]
  have hb2 : base64ToBufferE (btoaModel (getRandomValues r2 16))
      = Except.ok (getRandomValues r2 16) := by
    rw [base64ToBufferE, atobModel_btoaModel _ hsalt_lt]
  have hb3 : base64ToBufferE (btoaModel (gcmEncrypt
        (subtleKeyFromDeviceInfo dev (getRandomValues r2 16))
        (getRandomValues r1 12) (utf8Encode s.data)))
      = Except.ok (gcmEncrypt (subtleKeyFromDeviceInfo dev (getRandomValues r2 16))
        (getRandomValues r1 12) (utf8Encode s.data)) := by
    rw [base64ToBufferE, atobModel_btoaModel _ hct_lt]
  have hg : gcmDecryptE (subtleKeyFromDeviceInfo dev (getRandomValues r2 16))
      (getRandomValues r1 12)
      (gcmEncrypt (subtleKeyFromDeviceInfo dev (getRandomValues r2 16))
        (getRandomValues r1 12) (utf8Encode s.data))
      = Except.ok (utf8Encode s.data) := by
    rw [gcmDecryptE, gcmDecrypt_gcmEncrypt]
  rw [decryptBody]
  simp only [hsplit, partAt, List.get?, Option.getD_some, hb1, hb2, hb3]
  show (Except.ok (gcmEncrypt (subtleKeyFromDeviceInfo dev (getRandomValues r2 16))
    (getRandomValues r1 12) (utf8Encode s.data)) >>= fun data =>
      gcmDecryptE (subtleKeyFromDeviceInfo dev (getRandomValues r2 16))
        (getRandomValues r1 12) data >>= fun plain =>
        match utf8Decode plain with
        | some cs => pure (String.mk cs)
        | none => Except.error JsError.operationError) = Except.ok s
  rw [show ∀ (a : List Nat) (f : List Nat → Except JsError String), (Except.ok a >>= f) = f a
    from fun a f => rfl]
  rw [hg]
  rw [show ∀ (a : List Nat) (f : List Nat → Except JsError String), (Except.ok a >>= f) = f a
    from fun a f => rfl]
  rw [utf8Decode_utf8Encode]
  rfl

/-- Different fingerprint strings give keys with different identities. -/
theorem subtleKey_ne_of_fingerprint_ne {devA devB : DeviceInfo} (salt : List Nat)
    (hne : deviceFingerprint devA ≠ deviceFingerprint devB) :
    keyBytes (subtleKeyFromDeviceInfo devA salt)
      ≠ keyBytes (subtleKeyFromDeviceInfo devB salt) := by
  intro h
  apply hne
  have hp := keyBytes_password_inj h
  simp only [subtleKeyFromDeviceInfo] at hp
  have hd := utf8Encode_injective hp
  cases hA : deviceFingerprint devA with
  | mk dataA =>
    cases hB : deviceFingerprint devB with
    | mk dataB =>
      rw [hA, hB] at hd
      simp only at hd
      rw [hd]

/-- Decryption under a device with a different fingerprint string fails
inside the body with an `OperationError`. -/
theorem decryptBody_encryptLocal_cross (r1 r2 : Nat → Nat) (devA devB : DeviceInfo)
    (s : String) (hne : deviceFingerprint devA ≠ deviceFingerprint devB) :
    decryptBody devB (encryptLocal r1 r2 devA s)
      = Except.error JsError.operationError := by
  have hiv_lt := getRandomValues_lt_256 r1 12
  have hsalt_lt := getRandomValues_lt_256 r2 16
  have hmsg_lt := utf8Encode_lt_256 s.data
  have hkey_lt : ∀ b ∈ keyBytes (subtleKeyFromDeviceInfo devA (getRandomValues r2 16)),
      b < 256 :=
    keyBytes_lt_256 _ (utf8Encode_lt_256 _) (getRandomValues_lt_256 r2 16)
  have hct_lt : ∀ b ∈ gcmEncrypt (subtleKeyFromDeviceInfo devA (getRandomValues r2 16))
      (getRandomValues r1 12) (utf8Encode s.data), b < 256 :=
    gcmEncrypt_lt_256 _ _ _ hkey_lt (getRandomValues_lt_256 r1 12) hmsg_lt
  have hdata : (encryptLocal r1 r2 devA s).data
      = btoaModel (getRandomValues r1 12)
        ++ '.' :: (btoaModel (getRandomValues r2 16)
        ++ '.' :: btoaModel (gcmEncrypt (subtleKeyFromDeviceInfo devA (getRandomValues r2 16))
            (getRandomValues r1 12) (utf8Encode s.data))) := by
    simp [encryptLocal, bufferToBase64, String.data_append]
  have hsplit : splitDot (encryptLocal r1 r2 devA s).data
      = [btoaModel (getRandomValues r1 12), btoaModel (getRandomValues r2 16),
         btoaModel (gcmEncrypt (subtleKeyFromDeviceInfo devA (getRandomValues r2 16))
            (getRandomValues r1 12) (utf8Encode s.data))] := by
    rw [hdata]
    exact splitDot_three _ _ _ (btoaModel_no_dot _ hiv_lt) (btoaModel_no_dot _ hsalt_lt)
      (btoaModel_no_dot _ hct_lt)
  have hb1 : base64ToBufferE (btoaModel (getRandomValues r1 12))
      = Except.ok (getRandomValues r1 12) := by
    rw [base64ToBufferE, atobModel_btoaModel _ hiv_lt]
  have hb2 : base64ToBufferE (btoaModel (getRandomValues r2 16))
      = Except.ok (getRandomValues r2 16) := by
    rw [base64ToBufferE, atobModel_btoaModel _ hsalt_lt]
  have hb3 : base64ToBufferE (btoaModel (gcmEncrypt
        (subtleKeyFromDeviceInfo devA (getRandomValues r2 16))
        (getRandomValues r1 12) (utf8Encode s.data)))
      = Except.ok (gcmEncrypt (subtleKeyFromDeviceInfo devA (getRandomValues r2 16))
        (getRandomValues r1 12) (utf8Encode s.data)) := by
    rw [base64ToBufferE, atobModel_btoaModel _ hct_lt]
  have hg : gcmDecryptE (subtleKeyFromDeviceInfo devB (getRandomValues r2 16))
      (getRandomValues r1 12)
      (gcmEncrypt (subtleKeyFromDeviceInfo devA (getRandomValues r2 16))
        (getRandomValues r1 12) (utf8Encode s.data))
      = Except.error JsError.operationError := by
    rw [gcmDecryptE, gcmDecrypt_wrong_key]
    exact subtleKey_ne_of_fingerprint_ne _ hne
  rw [decryptBody]
  simp only [hsplit, partAt, List.get?, Option.getD_some, hb1, hb2, hb3]
  show (Except.ok (gcmEncrypt (subtleKeyFromDeviceInfo devA (getRandomValues r2 16))
    (getRandomValues r1 12) (utf8Encode s.data)) >>= fun data =>
      gcmDecryptE (subtleKeyFromDeviceInfo devB (getRandomValues r2 16))
        (getRandomValues r1 12) data >>= fun plain =>
        match utf8Decode plain with
        | some cs => pure (String.mk cs)
        | none => Except.error JsError.operationError) = Except.error JsError.operationError
  rw [show ∀ (a : List Nat) (f : List Nat → Except JsError String), (Except.ok a >>= f) = f a
    from fun a f => rfl]
  rw [hg]
  rfl

/-- Tampering: the payload re-assembled with one ciphertext byte changed to
a different value fails inside the body with an `OperationError`. -/
theorem decryptBody_encryptLocal_tamper (r1 r2 : Nat → Nat) (dev : DeviceInfo) (s : String)
    (j v : Nat)
    (hj : j < (gcmEncrypt (subtleKeyFromDeviceInfo dev (getRandomValues r2 16))
        (getRandomValues r1 12) (utf8Encode s.data)).length)
    (hv256 : v < 256)
    (hv : v ≠ (gcmEncrypt (subtleKeyFromDeviceInfo dev (getRandomValues r2 16))
        (getRandomValues r1 12) (utf8Encode s.data)).get ⟨j, hj⟩) :
    decryptBody dev (bufferToBase64 (getRandomValues r1 12) ++ "."
        ++ bufferToBase64 (getRandomValues r2 16) ++ "."
        ++ bufferToBase64 ((gcmEncrypt (subtleKeyFromDeviceInfo dev (getRandomValues r2 16))
            (getRandomValues r1 12) (utf8Encode s.data)).set j v))
      = Except.error JsError.operationError := by
  have hiv_lt := getRandomValues_lt_256 r1 12
  have hsalt_lt := getRandomValues_lt_256 r2 16
  have hmsg_lt := utf8Encode_lt_256 s.data
  have hkey_lt : ∀ b ∈ keyBytes (subtleKeyFromDeviceInfo dev (getRandomValues r2 16)),
      b < 256 :=
    keyBytes_lt_256 _ (utf8Encode_lt_256 _) (getRandomValues_lt_256 r2 16)
  have hct_lt : ∀ b ∈ gcmEncrypt (subtleKeyFromDeviceInfo dev (getRandomValues r2 16))
      (getRandomValues r1 12) (utf8Encode s.data), b < 256 :=
    gcmEncrypt_lt_256 _ _ _ hkey_lt (getRandomValues_lt_256 r1 12) hmsg_lt
  have hset_lt : ∀ b ∈ (gcmEncrypt (subtleKeyFromDeviceInfo dev (getRandomValues r2 16))
      (getRandomValues r1 12) (utf8Encode s.data)).set j v, b < 256 := by
    intro b hb
    rcases List.mem_or_eq_of_mem_set hb with hb | rfl
    · exact hct_lt b hb
    · exact hv256
  have hdata : (bufferToBase64 (getRandomValues r1 12) ++ "."
        ++ bufferToBase64 (getRandomValues r2 16) ++ "."
        ++ bufferToBase64 ((gcmEncrypt (subtleKeyFromDeviceInfo dev (getRandomValues r2 16))
            (getRandomValues r1 12) (utf8Encode s.data)).set j v)).data
      = btoaModel (getRandomValues r1 12)
        ++ '.' :: (btoaModel (getRandomValues r2 16)
        ++ '.' :: btoaModel ((gcmEncrypt (subtleKeyFromDeviceInfo dev (getRandomValues r2 16))
            (getRandomValues r1 12) (utf8Encode s.data)).set j v)) := by
    simp [bufferToBase64, String.data_append]
  have hsplit : splitDot (bufferToBase64 (getRandomValues r1 12) ++ "."
        ++ bufferToBase64 (getRandomValues r2 16) ++ "."
        ++ bufferToBase64 ((gcmEncrypt (subtleKeyFromDeviceInfo dev (getRandomValues r2 16))
            (getRandomValues r1 12) (utf8Encode s.data)).set j v)).data
      = [btoaModel (getRandomValues r1 12), btoaModel (getRandomValues r2 16),
         btoaModel ((gcmEncrypt (subtleKeyFromDeviceInfo dev (getRandomValues r2 16))
            (getRandomValues r1 12) (utf8Encode s.data)).set j v)] := by
    rw [hdata]
    exact splitDot_three _ _ _ (btoaModel_no_dot _ hiv_lt) (btoaModel_no_dot _ hsalt_lt)
      (btoaModel_no_dot _ hset_lt)
  have hb1 : base64ToBufferE (btoaModel (getRandomValues r1 12))
      = Except.ok (getRandomValues r1 12) := by
    rw [base64ToBufferE, atobModel_btoaModel _ hiv_lt]
  have hb2 : base64ToBufferE (btoaModel (getRandomValues r2 16))
      = Except.ok (getRandomValues r2 16) := by
    rw [base64ToBufferE, atobModel_btoaModel _ hsalt_lt]
  have hb3 : base64ToBufferE (btoaModel ((gcmEncrypt
        (subtleKeyFromDeviceInfo dev (getRandomValues r2 16))
        (getRandomValues r1 12) (utf8Encode s.data)).set j v))
      = Except.ok ((gcmEncrypt (subtleKeyFromDeviceInfo dev (getRandomValues r2 16))
        (getRandomValues r1 12) (utf8Encode s.data)).set j v) := by
    rw [base64ToBufferE, atobModel_btoaModel _ hset_lt]
  have hg : gcmDecryptE (subtleKeyFromDeviceInfo dev (getRandomValues r2 16))
      (getRandomValues r1 12)
      ((gcmEncrypt (subtleKeyFromDeviceInfo dev (getRandomValues r2 16))
        (getRandomValues r1 12) (utf8Encode s.data)).set j v)
      = Except.error JsError.operationError := by
    rw [gcmDecryptE, gcmDecrypt_set_ne _ _ _ _ _ _ _ hj hv]
  rw [decryptBody]
  simp only [hsplit, partAt, List.get?, Option.getD_some, hb1, hb2, hb3]
  show (Except.ok ((gcmEncrypt (subtleKeyFromDeviceInfo dev (getRandomValues r2 16))
    (getRandomValues r1 12) (utf8Encode s.data)).set j v) >>= fun data =>
      gcmDecryptE (subtleKeyFromDeviceInfo dev (getRandomValues r2 16))
        (getRandomValues r1 12) data >>= fun plain =>
        match utf8Decode plain with
        | some cs => pure (String.mk cs)
        | none => Except.error JsError.operationError) = Except.error JsError.operationError
  rw [show ∀ (a : List Nat) (f : List Nat → Except JsError String), (Except.ok a >>= f) = f a
    from fun a f => rfl]
  rw [hg]
  rfl

/-! ## Session store

The session service (`features/session/services/session.service.ts`) is
imported by the `useSession` hook (and re-exported via `../services`), but
the service file itself is not among the available sources; only its
callers and the simplified tutorial version printed in `README.md`
(lines 556-598) are.  The definitions below are therefore modelled from
the specification (spec.md §4.2), with the operation shapes following the
README tutorial code (`getSession` deletes on expiry; `updateLastActivity`
goes through `getSession`).  Local storage is the `SessionStore` value
threaded explicitly; the clock (`Date.now()`) is the explicit `now`
argument.  `JSON.stringify`/`JSON.parse` are external to the store and
are modelled by a stored blob that either parses back to the written
record or fails to parse (a corrupted string); the catch around
`JSON.parse` appears as `parseBlob` returning `none`. -/

/-- The session record persisted under the fixed local-storage key
(`SessionData` in the source). -/
structure SessionData where
  walletAddress : String
  createdAt : Nat
  expiresAt : Nat
  lastActivity : Nat
deriving DecidableEq

/-- A raw local-storage value under the session key: either the JSON
serialisation of a record (which `JSON.parse` recovers exactly) or a
corrupted string that fails to parse. -/
inductive StoredBlob where
  | json (s : SessionData)
  | corrupt (raw : String)
deriving DecidableEq

/-- Modelled from the spec: `JSON.parse` of a stored value, with the parse
failure on corrupted data caught and surfaced as `none`. -/
def parseBlob : StoredBlob → Option SessionData
  | StoredBlob.json s => some s
  | StoredBlob.corrupt _ => none

/-- The session slot of local storage; `none` models an absent key. -/
abbrev SessionStore := Option StoredBlob

/-- The parseable session currently in storage, if any. -/
def storedSession (st : SessionStore) : Option SessionData := st.bind parseBlob

/-- Modelled from the spec: `createSession(walletAddress, expiryMs)` writes
a new record with `createdAt = lastActivity = now` and
`expiresAt = now + expiryMs` to local storage, overwriting any existing
record, and returns it (spec.md §4.2; declared in simplified form in
`src/README.md:562-573`). -/
def createSession (now : Nat) (walletAddress : String) (expiryMs : Nat)
    (_st : SessionStore) : SessionData × SessionStore :=
  let s : SessionData :=
    { walletAddress := walletAddress, createdAt := now,
      expiresAt := now + expiryMs, lastActivity := now }
  (s, some (StoredBlob.json s))

/-- Modelled from the spec: `getSession()` reads and parses the stored
record; a missing or unparseable value is treated as "no session"; if
`now > expiresAt` the record is deleted and `null` returned — lazy
expiry, detected only on read (spec.md §4.2; `src/README.md:575-586`). -/
def getSession (now : Nat) (st : SessionStore) : Option SessionData × SessionStore :=
  match st with
  | none => (none, none)
  | some blob =>
    match parseBlob blob with
    | none => (none, st)
    | some s => if now > s.expiresAt then (none, none) else (some s, st)

/-- Modelled from the spec: `clearSession()` removes the stored record
(`src/README.md:588-590`). -/
def clearSession (_st : SessionStore) : SessionStore := none

/-- Modelled from the spec: `updateLastActivity()` rewrites `lastActivity`
on the record returned by `getSession`, and does nothing more when
`getSession` returns `null` (spec.md §4.2; `src/README.md:592-598` shows
the `getSession`-based shape, through which an expired record is deleted
on the way). -/
def updateLastActivity (now : Nat) (st : SessionStore) : SessionStore :=
  match getSession now st with
  | (some s, _) => some (StoredBlob.json { s with lastActivity := now })
  | (none, st2) => st2

/-- Modelled from the spec: `extendSession(additionalMs)` adds
`additionalMs` to `expiresAt` of the existing record and stores the
result; returns `null` if no session exists (spec.md §4.2). -/
def extendSession (now additionalMs : Nat) (st : SessionStore) :
    Option SessionData × SessionStore :=
  match getSession now st with
  | (some s, _) =>
    let s2 := { s with expiresAt := s.expiresAt + additionalMs }
    (some s2, some (StoredBlob.json s2))
  | (none, st2) => (none, st2)

/-- Modelled from the spec: `hasValidSession()` is true iff `getSession()`
returns a record (spec.md §4.2). -/
def hasValidSession (now : Nat) (st : SessionStore) : Bool × SessionStore :=
  match getSession now st with
  | (some _, st2) => (true, st2)
  | (none, st2) => (false, st2)

/-- Modelled from the spec: `getSessionTimeRemaining()` returns
`max(0, expiresAt - now)` (truncated subtraction on `Nat`), `0` when no
session exists (spec.md §4.2). -/
def getSessionTimeRemaining (now : Nat) (st : SessionStore) : Nat × SessionStore :=
  match getSession now st with
  | (some s, st2) => (s.expiresAt - now, st2)
  | (none, st2) => (0, st2)

/-- Modelled from the spec: `isSessionExpiringSoon(thresholdMs)` is true
iff the remaining time is positive and below the threshold (spec.md §4.2). -/
def isSessionExpiringSoon (now threshold : Nat) (st : SessionStore) : Bool × SessionStore :=
  match getSessionTimeRemaining now st with
  | (remaining, st2) => (decide (0 < remaining ∧ remaining < threshold), st2)

/-- Modelled from the spec: `clearAllSessionData(keepPreferences)` deletes
the session record; preferences live under a separate key and are not
modelled (spec.md §4.2). -/
def clearAllSessionData (_keepPreferences : Bool) (_st : SessionStore) : SessionStore :=
  none

/-- The record invariant of the spec: `createdAt ≤ lastActivity` and
`expiresAt > createdAt`. -/
def SessionInv (s : SessionData) : Prop :=
  s.createdAt ≤ s.lastActivity ∧ s.createdAt < s.expiresAt

instance (s : SessionData) : Decidable (SessionInv s) := by
  unfold SessionInv
  infer_instance

/-! ## Claim theorems -/

/-- C1: for every string `s`, when encryption and decryption run in the
same device-fingerprint context (same userAgent/platform strings, with the
salt and IV recovered from the payload), `decryptLocal (encryptLocal s)`
returns `s`, whatever entropy produced the IV and salt. -/
theorem claim1_decrypt_encrypt_roundtrip (r1 r2 : Nat → Nat) (dev : DeviceInfo)
    (s : String) : decryptLocal dev (encryptLocal r1 r2 dev s) = some s := by
  rw [decryptLocal, decryptBody_encryptLocal]

/-- C2: `decryptLocal` is fail-closed: every error raised in its try-block
is caught and becomes `null` (the result is exactly the `Option` collapse
of the fallible body); `decryptLocal "not.a.validpayload"` is `null`; and
re-assembling a valid payload with any single ciphertext byte changed to a
different byte value makes `decryptLocal` return `null`. -/
theorem claim2_decrypt_fail_closed :
    (∀ (dev : DeviceInfo) (payload : String),
        decryptLocal dev payload = (decryptBody dev payload).toOption)
    ∧ (∀ dev : DeviceInfo, decryptLocal dev "not.a.validpayload" = none)
    ∧ (∀ (r1 r2 : Nat → Nat) (dev : DeviceInfo) (s : String) (j v : Nat)
        (hj : j < (gcmEncrypt (subtleKeyFromDeviceInfo dev (getRandomValues r2 16))
            (getRandomValues r1 12) (utf8Encode s.data)).length),
        v < 256 →
        v ≠ (gcmEncrypt (subtleKeyFromDeviceInfo dev (getRandomValues r2 16))
            (getRandomValues r1 12) (utf8Encode s.data)).get ⟨j, hj⟩ →
        decryptLocal dev (bufferToBase64 (getRandomValues r1 12) ++ "."
            ++ bufferToBase64 (getRandomValues r2 16) ++ "."
            ++ bufferToBase64 ((gcmEncrypt (subtleKeyFromDeviceInfo dev (getRandomValues r2 16))
                (getRandomValues r1 12) (utf8Encode s.data)).set j v)) = none) := by
  refine ⟨?_, ?_, ?_⟩
  · intro dev payload
    rw [decryptLocal]
    cases decryptBody dev payload <;> rfl
  · intro dev
    rfl
  · intro r1 r2 dev s j v hj hv256 hv
    rw [decryptLocal, decryptBody_encryptLocal_tamper r1 r2 dev s j v hj hv256 hv]

theorem claim2_decrypt_fail_closed_witness :
    ((0 : Nat) < (gcmEncrypt (subtleKeyFromDeviceInfo ⟨"ua", "mac"⟩
        (getRandomValues (fun i => i) 16)) (getRandomValues (fun i => i) 12)
        (utf8Encode "hi".data)).length)
    ∧ decryptLocal ⟨"ua", "mac"⟩ (bufferToBase64 (getRandomValues (fun i => i) 12) ++ "."
        ++ bufferToBase64 (getRandomValues (fun i => i) 16) ++ "."
        ++ bufferToBase64 ((gcmEncrypt (subtleKeyFromDeviceInfo ⟨"ua", "mac"⟩
            (getRandomValues (fun i => i) 16)) (getRandomValues (fun i => i) 12)
            (utf8Encode "hi".data)).set 0 0)) = none :=
  ⟨by decide,
   claim2_decrypt_fail_closed.2.2 (fun i => i) (fun i => i) ⟨"ua", "mac"⟩ "hi" 0 0
     (by decide) (by decide) (by decide)⟩

/-- C3: `getSession` returns the stored record while it is valid
(`now < expiresAt`); when `now > expiresAt` it deletes the record and
returns `null` (lazy expiry).  Consequently, after
`createSession(addr, 1000)` and advancing time by 1001 ms, `getSession()`
is `null` and `hasValidSession()` is false. -/
theorem claim3_getSession_lazy_expiry :
    (∀ (now : Nat) (s : SessionData), now < s.expiresAt →
        getSession now (some (StoredBlob.json s)) = (some s, some (StoredBlob.json s)))
    ∧ (∀ (now : Nat) (s : SessionData), now > s.expiresAt →
        getSession now (some (StoredBlob.json s)) = (none, none))
    ∧ (∀ (t : Nat) (addr : String) (st : SessionStore),
        getSession (t + 1001) (createSession t addr 1000 st).2 = (none, none)
        ∧ hasValidSession (t + 1001) (createSession t addr 1000 st).2 = (false, none)) := by
  refine ⟨?_, ?_, ?_⟩
  · intro now s h
    simp only [getSession, parseBlob]
    rw [if_neg (by omega)]
  · intro now s h
    simp only [getSession, parseBlob]
    rw [if_pos h]
  · intro t addr st
    have h1 : getSession (t + 1001) (createSession t addr 1000 st).2 = (none, none) := by
      simp only [createSession, getSession, parseBlob]
      rw [if_pos (by omega)]
    exact ⟨h1, by simp only [hasValidSession, h1]⟩

theorem claim3_getSession_lazy_expiry_witness :
    ((0 : Nat) < (⟨"a", 0, 5, 0⟩ : SessionData).expiresAt
      ∧ getSession 0 (some (StoredBlob.json ⟨"a", 0, 5, 0⟩))
          = (some ⟨"a", 0, 5, 0⟩, some (StoredBlob.json ⟨"a", 0, 5, 0⟩)))
    ∧ ((7 : Nat) > (⟨"a", 0, 5, 0⟩ : SessionData).expiresAt
      ∧ getSession 7 (some (StoredBlob.json ⟨"a", 0, 5, 0⟩)) = (none, none))
    ∧ getSession 1001 (createSession 0 "Addr" 1000 none).2 = (none, none) :=
  ⟨⟨by decide, claim3_getSession_lazy_expiry.1 0 ⟨"a", 0, 5, 0⟩ (by decide)⟩,
   ⟨by decide, claim3_getSession_lazy_expiry.2.1 7 ⟨"a", 0, 5, 0⟩ (by decide)⟩,
   (claim3_getSession_lazy_expiry.2.2 0 "Addr" none).1⟩

/-- C4: `createSession(walletAddress, expiryMs)` writes a record with
`createdAt = lastActivity = now` and `expiresAt = now + expiryMs`,
overwriting any existing record.  Concretely, after
`createSession("Addr123", 24*3600*1000)` at time `T`, `getSession()`
returns exactly that record, and after `clearSession()` a subsequent
`getSession()` returns `null`. -/
theorem claim4_createSession_writes_record :
    (∀ (now : Nat) (addr : String) (expiryMs : Nat) (st : SessionStore),
        createSession now addr expiryMs st
          = ({ walletAddress := addr, createdAt := now, expiresAt := now + expiryMs,
               lastActivity := now },
             some (StoredBlob.json
               { walletAddress := addr, createdAt := now, expiresAt := now + expiryMs,
                 lastActivity := now })))
    ∧ (∀ (t : Nat) (st : SessionStore),
        getSession t (createSession t "Addr123" (24 * 3600 * 1000) st).2
          = (some
               { walletAddress := "Addr123", createdAt := t, expiresAt := t + 86400000,
                 lastActivity := t },
             (createSession t "Addr123" (24 * 3600 * 1000) st).2)
        ∧ ∀ now2 : Nat,
            getSession now2 (clearSession (createSession t "Addr123" (24 * 3600 * 1000) st).2)
              = (none, none)) := by
  refine ⟨fun now addr expiryMs st => rfl, ?_⟩
  intro t st
  constructor
  · simp only [createSession, getSession, parseBlob]
    rw [if_neg (by omega)]
  · intro now2
    rfl

/-- C5: every session-store operation applied to a state whose stored
record is missing or corrupted (unparseable) behaves exactly as if no
session exists — the visible result equals the one on an absent record, no
parseable session remains in storage, and (in the model, where every
operation is a total function) no exception reaches the caller; the
`JSON.parse` failure is absorbed by `parseBlob`. -/
theorem claim5_corrupt_record_as_absent (now threshold addMs expiry : Nat)
    (addr raw : String) :
    getSession now (some (StoredBlob.corrupt raw)) = (none, some (StoredBlob.corrupt raw))
    ∧ getSession now none = (none, none)
    ∧ storedSession ((getSession now (some (StoredBlob.corrupt raw))).2) = none
    ∧ updateLastActivity now (some (StoredBlob.corrupt raw)) = some (StoredBlob.corrupt raw)
    ∧ updateLastActivity now none = none
    ∧ extendSession now addMs (some (StoredBlob.corrupt raw))
        = (none, some (StoredBlob.corrupt raw))
    ∧ extendSession now addMs none = (none, none)
    ∧ hasValidSession now (some (StoredBlob.corrupt raw))
        = (false, some (StoredBlob.corrupt raw))
    ∧ hasValidSession now none = (false, none)
    ∧ getSessionTimeRemaining now (some (StoredBlob.corrupt raw))
        = (0, some (StoredBlob.corrupt raw))
    ∧ getSessionTimeRemaining now none = (0, none)
    ∧ isSessionExpiringSoon now threshold (some (StoredBlob.corrupt raw))
        = (false, some (StoredBlob.corrupt raw))
    ∧ isSessionExpiringSoon now threshold none = (false, none)
    ∧ clearSession (some (StoredBlob.corrupt raw)) = none
    ∧ createSession now addr expiry (some (StoredBlob.corrupt raw))
        = createSession now addr expiry none :=
  ⟨rfl, rfl, rfl, rfl, rfl, rfl, rfl, rfl, rfl, rfl, rfl, rfl, rfl, rfl, rfl⟩

/-- C6: `encryptLocal` returns
`base64(iv) ++ "." ++ base64(salt) ++ "." ++ base64(ciphertext)` where the
IV is the next 12 fresh bytes and the salt the next 16 fresh bytes of the
entropy sources, and the AES-GCM key is derived by PBKDF2 (100000
iterations, SHA-256, 256-bit key) from the device fingerprint string —
userAgent concatenated with platform (when `platform` is non-empty; an
empty one falls back to `"web"`) — and that salt. -/
theorem claim6_encryptLocal_format_and_kdf (r1 r2 : Nat → Nat) (dev : DeviceInfo)
    (data : String) (hplat : dev.platform ≠ "") :
    encryptLocal r1 r2 dev data
      = bufferToBase64 (getRandomValues r1 12) ++ "."
        ++ bufferToBase64 (getRandomValues r2 16) ++ "."
        ++ bufferToBase64 (gcmEncrypt (subtleKeyFromDeviceInfo dev (getRandomValues r2 16))
            (getRandomValues r1 12) (utf8Encode data.data))
    ∧ (getRandomValues r1 12).length = 12
    ∧ (getRandomValues r2 16).length = 16
    ∧ (subtleKeyFromDeviceInfo dev (getRandomValues r2 16)).iterations = 100000
    ∧ (subtleKeyFromDeviceInfo dev (getRandomValues r2 16)).hash = "SHA-256"
    ∧ (subtleKeyFromDeviceInfo dev (getRandomValues r2 16)).keyLength = 256
    ∧ (subtleKeyFromDeviceInfo dev (getRandomValues r2 16)).salt = getRandomValues r2 16
    ∧ (subtleKeyFromDeviceInfo dev (getRandomValues r2 16)).password
        = utf8Encode ((dev.userAgent ++ dev.platform).data) := by
  refine ⟨rfl, getRandomValues_length r1 12, getRandomValues_length r2 16,
    rfl, rfl, rfl, rfl, ?_⟩
  simp [subtleKeyFromDeviceInfo, deviceFingerprint, hplat]

theorem claim6_encryptLocal_format_and_kdf_witness :
    (DeviceInfo.mk "ua" "mac").platform ≠ ""
    ∧ (encryptLocal (fun i => i) (fun i => i) ⟨"ua", "mac"⟩ "m"
      = bufferToBase64 (getRandomValues (fun i => i) 12) ++ "."
        ++ bufferToBase64 (getRandomValues (fun i => i) 16) ++ "."
        ++ bufferToBase64 (gcmEncrypt (subtleKeyFromDeviceInfo ⟨"ua", "mac"⟩
            (getRandomValues (fun i => i) 16)) (getRandomValues (fun i => i) 12)
            (utf8Encode "m".data))
    ∧ (getRandomValues (fun i => (i : Nat)) 12).length = 12
    ∧ (getRandomValues (fun i => (i : Nat)) 16).length = 16
    ∧ (subtleKeyFromDeviceInfo ⟨"ua", "mac"⟩ (getRandomValues (fun i => i) 16)).iterations
        = 100000
    ∧ (subtleKeyFromDeviceInfo ⟨"ua", "mac"⟩ (getRandomValues (fun i => i) 16)).hash
        = "SHA-256"
    ∧ (subtleKeyFromDeviceInfo ⟨"ua", "mac"⟩ (getRandomValues (fun i => i) 16)).keyLength
        = 256
    ∧ (subtleKeyFromDeviceInfo ⟨"ua", "mac"⟩ (getRandomValues (fun i => i) 16)).salt
        = getRandomValues (fun i => i) 16
    ∧ (subtleKeyFromDeviceInfo ⟨"ua", "mac"⟩ (getRandomValues (fun i => i) 16)).password
        = utf8Encode (("ua" ++ "mac").data)) :=
  ⟨by decide,
   claim6_encryptLocal_format_and_kdf (fun i => i) (fun i => i) ⟨"ua", "mac"⟩ "m" (by decide)⟩

/-- C7: a payload produced by `encryptLocal` under device fingerprint A,
decrypted by `decryptLocal` under any device with a different fingerprint
string, yields `null`: the two runs cannot both recover the plaintext. -/
theorem claim7_cross_device_decrypt_null (r1 r2 : Nat → Nat) (devA devB : DeviceInfo)
    (s : String) (hne : deviceFingerprint devA ≠ deviceFingerprint devB) :
    decryptLocal devB (encryptLocal r1 r2 devA s) = none := by
  rw [decryptLocal, decryptBody_encryptLocal_cross r1 r2 devA devB s hne]

theorem claim7_cross_device_decrypt_null_witness :
    deviceFingerprint ⟨"uaA", "mac"⟩ ≠ deviceFingerprint ⟨"uaB", "mac"⟩
    ∧ decryptLocal ⟨"uaB", "mac"⟩
        (encryptLocal (fun i => i) (fun i => i) ⟨"uaA", "mac"⟩ "secret") = none :=
  ⟨by decide,
   claim7_cross_device_decrypt_null (fun i => i) (fun i => i) ⟨"uaA", "mac"⟩ ⟨"uaB", "mac"⟩
     "secret" (by decide)⟩

/-- C8: the invariant `createdAt ≤ lastActivity ∧ expiresAt > createdAt`
holds for the record written by `createSession` (for positive expiry) and
is preserved by every rewrite done by `updateLastActivity` (under a
non-decreasing clock) and `extendSession`. -/
theorem claim8_session_invariant :
    (∀ (now expiryMs : Nat) (addr : String) (st : SessionStore), 0 < expiryMs →
        SessionInv (createSession now addr expiryMs st).1)
    ∧ (∀ (now : Nat) (s s2 : SessionData), SessionInv s → s.createdAt ≤ now →
        updateLastActivity now (some (StoredBlob.json s)) = some (StoredBlob.json s2) →
        SessionInv s2)
    ∧ (∀ (now addMs : Nat) (s s2 : SessionData) (st2 : SessionStore), SessionInv s →
        extendSession now addMs (some (StoredBlob.json s)) = (some s2, st2) →
        SessionInv s2) := by
  refine ⟨?_, ?_, ?_⟩
  · intro now expiryMs addr st h
    exact ⟨Nat.le_refl _, by simp only [createSession]; omega⟩
  · intro now s s2 hInv hclock heq
    by_cases hexp : now > s.expiresAt
    · simp only [updateLastActivity, getSession, parseBlob, if_pos hexp] at heq
      cases heq
    · simp only [updateLastActivity, getSession, parseBlob, if_neg hexp] at heq
      injection heq with h1
      injection h1 with h2
      rw [← h2]
      exact ⟨hclock, hInv.2⟩
  · intro now addMs s s2 st2 hInv heq
    by_cases hexp : now > s.expiresAt
    · simp only [extendSession, getSession, parseBlob, if_pos hexp] at heq
      injection heq with h1 h2
      simp at h1
    · simp only [extendSession, getSession, parseBlob, if_neg hexp] at heq
      injection heq with h1 h2
      injection h1 with h3
      rw [← h3]
      exact ⟨hInv.1, show s.createdAt < s.expiresAt + addMs by have := hInv.2; omega⟩

theorem claim8_session_invariant_witness :
    ((0 : Nat) < 5 ∧ SessionInv (createSession 10 "a" 5 none).1)
    ∧ SessionInv (⟨"a", 0, 5, 3⟩ : SessionData)
    ∧ SessionInv (⟨"a", 0, 9, 0⟩ : SessionData) :=
  ⟨⟨by decide, claim8_session_invariant.1 10 5 "a" none (by decide)⟩,
   claim8_session_invariant.2.1 3 ⟨"a", 0, 5, 0⟩ ⟨"a", 0, 5, 3⟩ (by decide) (by decide)
     (by decide),
   claim8_session_invariant.2.2 2 4 ⟨"a", 0, 5, 0⟩ ⟨"a", 0, 9, 0⟩
     (some (StoredBlob.json ⟨"a", 0, 9, 0⟩)) (by decide) (by decide)⟩

/-- C9 as stated is false: `updateLastActivity` goes through `getSession`,
so on a stored but expired record it neither rewrites `lastActivity` nor
leaves the stored state unchanged — it deletes the record.  At
`now = 2000` with a record expiring at 1000, the result is an empty store,
which is neither the original store nor a `lastActivity` rewrite. -/
theorem claim9_counterexample :
    updateLastActivity 2000 (some (StoredBlob.json ⟨"addr", 0, 1000, 0⟩)) = none
    ∧ (none : SessionStore) ≠ some (StoredBlob.json ⟨"addr", 0, 1000, 0⟩)
    ∧ (none : SessionStore) ≠ some (StoredBlob.json ⟨"addr", 0, 1000, 2000⟩) := by
  exact ⟨rfl, by decide, by decide⟩

/-- C9 (amended): when `getSession` still returns the record (it is present
and unexpired), `updateLastActivity` rewrites only `lastActivity`, keeping
`walletAddress`, `createdAt` and `expiresAt`; on an absent or corrupt
record it leaves the stored state unchanged; on a stored but expired
record the embedded `getSession` deletes the record. -/
theorem claim9_updateLastActivity_frame_amended :
    (∀ (now : Nat) (s : SessionData), ¬ now > s.expiresAt →
        updateLastActivity now (some (StoredBlob.json s))
          = some (StoredBlob.json { s with lastActivity := now }))
    ∧ (∀ now : Nat, updateLastActivity now none = none)
    ∧ (∀ (now : Nat) (raw : String),
        updateLastActivity now (some (StoredBlob.corrupt raw))
          = some (StoredBlob.corrupt raw))
    ∧ (∀ (now : Nat) (s : SessionData), now > s.expiresAt →
        updateLastActivity now (some (StoredBlob.json s)) = none) := by
  refine ⟨?_, fun now => rfl, fun now raw => rfl, ?_⟩
  · intro now s hexp
    simp only [updateLastActivity, getSession, parseBlob, if_neg hexp]
  · intro now s hexp
    simp only [updateLastActivity, getSession, parseBlob, if_pos hexp]

theorem claim9_updateLastActivity_frame_amended_witness :
    (¬ (3 : Nat) > (⟨"a", 0, 5, 0⟩ : SessionData).expiresAt
      ∧ updateLastActivity 3 (some (StoredBlob.json ⟨"a", 0, 5, 0⟩))
          = some (StoredBlob.json ⟨"a", 0, 5, 3⟩))
    ∧ ((9 : Nat) > (⟨"a", 0, 5, 0⟩ : SessionData).expiresAt
      ∧ updateLastActivity 9 (some (StoredBlob.json ⟨"a", 0, 5, 0⟩)) = none) :=
  ⟨⟨by decide, claim9_updateLastActivity_frame_amended.1 3 ⟨"a", 0, 5, 0⟩ (by decide)⟩,
   ⟨by decide, claim9_updateLastActivity_frame_amended.2.2.2 9 ⟨"a", 0, 5, 0⟩ (by decide)⟩⟩

/-- C10: the base64 helpers invert each other — for every byte array,
`base64ToBuffer (bufferToBase64 b)` recovers `b` exactly. -/
theorem claim10_base64_roundtrip (b : List Nat) (h : ∀ x ∈ b, x < 256) :
    base64ToBuffer (bufferToBase64 b).data = some b := by
  show atobModel (String.mk (btoaModel b)).data = some b
  exact atobModel_btoaModel b h

theorem claim10_base64_roundtrip_witness :
    (∀ x ∈ [0, 255, 77, 1], x < 256)
    ∧ base64ToBuffer (bufferToBase64 [0, 255, 77, 1]).data = some [0, 255, 77, 1] :=
  ⟨by decide, claim10_base64_roundtrip [0, 255, 77, 1] (by decide)⟩

end LazorKey
